import Mathlib

/-!
Verification development for the ralph-dashboard backend (`backend/app`):
shallow Lean embeddings of the change dispatcher, watch layer, realtime
hub, process supervisor, plan parser, notification parser and
project-status detection, with theorems settling the specification's
claims about them.

Conventions used throughout the embedding:
* Python `str` values are modelled as `List Char`; byte-oriented file
  contents are modelled at the decoded-character level (UTF-8 decoding is
  not re-modelled; offsets count characters exactly the way the source
  counts bytes).
* Methods that mutate dictionaries on `self` become state-passing
  functions over structures whose fields mirror those dictionaries; the
  per-project dictionary entry for the project being handled is the
  structure's field value.
* Fallible I/O and parse failures become `Option`.
-/

set_option autoImplicit false

namespace Ralph

/-! ## Python string primitives

`isPySpace` models the character class Python's `str.strip` (and the
regex class `\s`) treats as whitespace; `isLineBreakChar` models the set
of line boundaries recognised by `str.splitlines`. -/

def isPySpace (c : Char) : Bool :=
  c = ' ' || c = '\t' || c = '\n' || c = '\r' || c = Char.ofNat 11 || c = Char.ofNat 12 ||
  c = Char.ofNat 28 || c = Char.ofNat 29 || c = Char.ofNat 30 || c = Char.ofNat 31 ||
  c = Char.ofNat 133 || c = Char.ofNat 160

def isLineBreakChar (c : Char) : Bool :=
  c = '\n' || c = '\r' || c = Char.ofNat 11 || c = Char.ofNat 12 || c = Char.ofNat 28 ||
  c = Char.ofNat 29 || c = Char.ofNat 30 || c = Char.ofNat 133 || c = Char.ofNat 8232 ||
  c = Char.ofNat 8233

/-- Python `str.lstrip()`. -/
def pyLStrip (s : List Char) : List Char := s.dropWhile isPySpace

/-- Python `str.rstrip()`. -/
def pyRStrip (s : List Char) : List Char := (s.reverse.dropWhile isPySpace).reverse

/-- Python `str.strip()`. -/
def pyStrip (s : List Char) : List Char := pyRStrip (pyLStrip s)

/-- Concatenation of a list of strings (Python `"".join(lines)`). -/
def joinAll (ls : List (List Char)) : List Char := ls.foldr (fun a b => a ++ b) []

/-- Worker for `str.splitlines(keepends=True)`: `acc` holds the current
line reversed; a `CR LF` pair counts as a single line ending. -/
def splitKeepAux : List Char → List Char → List (List Char)
  | [], acc => if acc.isEmpty then [] else [acc.reverse]
  | c :: rest, acc =>
    if c = '\r' then
      match rest with
      | [] => [acc.reverse ++ ['\r']]
      | d :: rest2 =>
        if d = '\n' then (acc.reverse ++ ['\r', '\n']) :: splitKeepAux rest2 []
        else (acc.reverse ++ ['\r']) :: splitKeepAux (d :: rest2) []
    else if isLineBreakChar c then (acc.reverse ++ [c]) :: splitKeepAux rest []
    else splitKeepAux rest (c :: acc)

/-- Python `str.splitlines(keepends=True)`. -/
def splitLinesKeepends (s : List Char) : List (List Char) := splitKeepAux s []

/-- Worker for `str.splitlines()` (line endings dropped). -/
def splitPlainAux : List Char → List Char → List (List Char)
  | [], acc => if acc.isEmpty then [] else [acc.reverse]
  | c :: rest, acc =>
    if c = '\r' then
      match rest with
      | [] => [acc.reverse]
      | d :: rest2 =>
        if d = '\n' then acc.reverse :: splitPlainAux rest2 []
        else acc.reverse :: splitPlainAux (d :: rest2) []
    else if isLineBreakChar c then acc.reverse :: splitPlainAux rest []
    else splitPlainAux rest (c :: acc)

/-- Python `str.splitlines()`. -/
def pySplitlines (s : List Char) : List (List Char) := splitPlainAux s []

/-- Uniform unfolding equation for `splitKeepAux` on a cons cell. -/
theorem splitKeepAux_cons (c : Char) (rest acc : List Char) :
    splitKeepAux (c :: rest) acc =
      if c = '\r' ∧ rest.head? = some '\n' then
        (acc.reverse ++ ['\r', '\n']) :: splitKeepAux rest.tail []
      else if isLineBreakChar c then (acc.reverse ++ [c]) :: splitKeepAux rest []
      else splitKeepAux rest (c :: acc) := by
  by_cases hc : c = '\r'
  · subst hc
    cases rest with
    | nil => simp [splitKeepAux, isLineBreakChar]
    | cons d rest2 =>
      by_cases hd : d = '\n'
      · subst hd; simp [splitKeepAux]
      · simp [splitKeepAux, hd, isLineBreakChar]
  · cases rest with
    | nil => simp [splitKeepAux, hc]
    | cons d rest2 => simp [splitKeepAux, hc]

theorem splitKeepAux_nil (acc : List Char) :
    splitKeepAux [] acc = if acc.isEmpty then [] else [acc.reverse] := rfl

/-! ## Plan parser (`app/plan/parser.py`)

Regex matchers are hand-compiled to character-level functions that
compute each regex's match result (match condition and captured groups,
after the `.strip()` calls the source applies to them). -/

/-- `PHASE_RE = ^##\s+(?P<name>.+?)\s*$` applied to a line; returns the
stripped name group on a match. -/
def matchPhaseLine (line : List Char) : Option (List Char) :=
  if line.take 2 = ['#', '#'] then
    let rest := line.drop 2
    if rest.head?.elim false isPySpace ∧ 2 ≤ rest.length then some (pyStrip rest) else none
  else none

/-- `STATUS_RE = ^STATUS:\s*(?P<status>.+?)\s*$` (case-insensitive),
applied by the source to the stripped line; returns the stripped status
group on a match. -/
def matchStatusLine (line : List Char) : Option (List Char) :=
  if (line.take 7).map Char.toUpper = "STATUS:".toList then
    let rest := line.drop 7
    if rest.isEmpty then none else some (pyStrip rest)
  else none

/-- Worker for `TASK_ID_RE`: consumes `(?:\.\d+)*` greedily. -/
def dotGroups (s : List Char) : List Char × List Char :=
  match s with
  | [] => ([], [])
  | c :: rest =>
    if c = '.' ∧ rest.head?.elim false Char.isDigit then
      let ds := rest.takeWhile Char.isDigit
      let (gs, r) := dotGroups (rest.dropWhile Char.isDigit)
      ('.' :: (ds ++ gs), r)
    else ([], c :: rest)
termination_by s.length
decreasing_by
  simp only [List.length_cons]
  exact Nat.lt_succ_of_le (List.dropWhile_sublist _).length_le

/-- `TASK_ID_RE = ^(?P<task_id>\d+(?:\.\d+)*):\s*(?P<description>.+)$`
applied to the stripped task content (which contains no line breaks);
returns the id group and the stripped description group. -/
def matchTaskId (content : List Char) : Option (List Char × List Char) :=
  let d1 := content.takeWhile Char.isDigit
  if d1.isEmpty then none
  else
    let (gs, rest1) := dotGroups (content.dropWhile Char.isDigit)
    if rest1.head? = some ':' then
      let body := rest1.drop 1
      if body.isEmpty then none else some (d1 ++ gs, pyStrip body)
    else none

/-- `TASK_RE = ^(?P<indent>\s*)-\s+\[(?P<done>[xX ])\]\s+(?P<content>.+?)\s*$`
applied to a line; returns `(indent length, done flag, stripped content)`
on a match.  The done flag is `group("done").lower() == "x"`. -/
def matchTaskLine (line : List Char) : Option (Nat × Bool × List Char) :=
  let indent := (line.takeWhile isPySpace).length
  let after := line.dropWhile isPySpace
  if after.head? = some '-' then
    let r2 := after.drop 1
    if r2.head?.elim false isPySpace then
      let r3 := r2.dropWhile isPySpace
      match r3.head?, (r3.drop 1).head?, (r3.drop 2).head? with
      | some lb, some m, some rb =>
        if lb = '[' ∧ (m = 'x' ∨ m = 'X' ∨ m = ' ') ∧ rb = ']' then
          let r4 := r3.drop 3
          if r4.head?.elim false isPySpace ∧ 2 ≤ r4.length then
            some (indent, m.toLower = 'x', pyStrip r4)
          else none
        else none
      | _, _, _ => none
    else none
  else none

structure PTask where
  id : Option (List Char)
  description : List Char
  done : Bool
  indent : Nat
deriving DecidableEq

structure PPhase where
  name : List Char
  tasks : List PTask
  doneCount : Nat
  totalCount : Nat
  status : String
deriving DecidableEq

structure ParsedPlan where
  status : Option (List Char)
  phases : List PPhase
  tasksDone : Nat
  tasksTotal : Nat
  raw : List Char
deriving DecidableEq

/-- `_phase_status` from `app/plan/parser.py`. -/
def phaseStatusOf (doneCount totalCount : Nat) : String :=
  if totalCount = 0 then "pending"
  else if doneCount = totalCount then "complete"
  else if 0 < doneCount then "in_progress"
  else "pending"

/-- One iteration of the line loop in `parse_implementation_plan`.  The
state carries the detected plan status and the phases in reverse order,
each phase holding its name and its tasks in reverse order (the head
phase is `current_phase`). -/
def planFoldStep (st : Option (List Char) × List (List Char × List PTask)) (line : List Char) :
    Option (List Char) × List (List Char × List PTask) :=
  let (status, revPhases) := st
  let phaseOrTask : Option (List Char) × List (List Char × List PTask) :=
    match matchPhaseLine line with
    | some name => (status, (name, []) :: revPhases)
    | none =>
      match matchTaskLine line with
      | some (indent, doneFlag, content) =>
        match revPhases with
        | [] => (status, revPhases)
        | (nm, ts) :: restPhases =>
          let (tid, desc) :=
            match matchTaskId content with
            | some (i, d) => (some i, d)
            | none => (none, content)
          (status,
            (nm, { id := tid, description := desc, done := doneFlag, indent := indent } :: ts)
              :: restPhases)
      | none => (status, revPhases)
  if status.isNone then
    match matchStatusLine (pyStrip line) with
    | some v => (some v, revPhases)
    | none => phaseOrTask
  else phaseOrTask

/-- `parse_implementation_plan` from `app/plan/parser.py`. -/
def parseImplementationPlan (content : List Char) : ParsedPlan :=
  let (status, revPhases) := (pySplitlines content).foldl planFoldStep (none, [])
  let phases := revPhases.reverse.map (fun p =>
    let tasks := p.2.reverse
    let total := tasks.length
    let done := (tasks.filter (fun t => t.done)).length
    { name := p.1, tasks := tasks, doneCount := done, totalCount := total,
      status := phaseStatusOf done total : PPhase })
  { status := status, phases := phases,
    tasksDone := (phases.map (fun ph => ph.doneCount)).sum,
    tasksTotal := (phases.map (fun ph => ph.totalCount)).sum,
    raw := content }

theorem phaseStatusOf_spec (done total : Nat) (hd : done ≤ total) :
    (phaseStatusOf done total = "complete" ↔ 0 < total ∧ done = total) ∧
    (phaseStatusOf done total = "in_progress" ↔ 0 < done ∧ done < total) ∧
    (phaseStatusOf done total = "pending" ↔
      ¬(0 < total ∧ done = total) ∧ ¬(0 < done ∧ done < total)) := by
  unfold phaseStatusOf
  by_cases h0 : total = 0 <;>
    by_cases h1 : done = total <;>
      by_cases h2 : 0 < done <;>
        simp [h0, h1, h2] <;> first | decide | omega

/-- C10: for every input string, the parsed plan satisfies:
`tasks_total` is the sum of the phases' `total_count`, `tasks_done` is
the sum of the phases' `done_count`, every phase has
`0 ≤ done_count ≤ total_count = number of its tasks`, and a phase's
status is `"complete"` iff `total_count > 0 ∧ done_count = total_count`,
`"in_progress"` iff `0 < done_count < total_count`, and `"pending"`
otherwise. -/
theorem plan_parser_invariants (content : List Char) :
    (parseImplementationPlan content).tasksTotal
        = ((parseImplementationPlan content).phases.map (fun ph => ph.totalCount)).sum ∧
    (parseImplementationPlan content).tasksDone
        = ((parseImplementationPlan content).phases.map (fun ph => ph.doneCount)).sum ∧
    ∀ ph ∈ (parseImplementationPlan content).phases,
      ph.doneCount ≤ ph.totalCount ∧
      ph.totalCount = ph.tasks.length ∧
      (ph.status = "complete" ↔ 0 < ph.totalCount ∧ ph.doneCount = ph.totalCount) ∧
      (ph.status = "in_progress" ↔ 0 < ph.doneCount ∧ ph.doneCount < ph.totalCount) ∧
      (ph.status = "pending" ↔
        ¬(0 < ph.totalCount ∧ ph.doneCount = ph.totalCount) ∧
        ¬(0 < ph.doneCount ∧ ph.doneCount < ph.totalCount)) := by
  refine ⟨rfl, rfl, ?_⟩
  intro ph hph
  simp only [parseImplementationPlan, List.mem_map] at hph
  obtain ⟨p, -, rfl⟩ := hph
  have hd : ((p.2.reverse.filter (fun t => t.done)).length) ≤ p.2.reverse.length :=
    List.length_filter_le _ _
  obtain ⟨hs1, hs2, hs3⟩ := phaseStatusOf_spec _ _ hd
  exact ⟨hd, rfl, hs1, hs2, hs3⟩

def planWitnessContent : List Char := ("## Phase A\n- [x] alpha\n- [ ] beta").toList

def planWitnessPhase : PPhase :=
  { name := "Phase A".toList,
    tasks := [{ id := none, description := "alpha".toList, done := true, indent := 0 },
              { id := none, description := "beta".toList, done := false, indent := 0 }],
    doneCount := 1, totalCount := 2, status := "in_progress" }

theorem plan_parser_invariants_witness :
    planWitnessPhase ∈ (parseImplementationPlan planWitnessContent).phases ∧
    (planWitnessPhase.doneCount ≤ planWitnessPhase.totalCount ∧
      planWitnessPhase.totalCount = planWitnessPhase.tasks.length ∧
      (planWitnessPhase.status = "complete" ↔
        0 < planWitnessPhase.totalCount ∧ planWitnessPhase.doneCount = planWitnessPhase.totalCount) ∧
      (planWitnessPhase.status = "in_progress" ↔
        0 < planWitnessPhase.doneCount ∧ planWitnessPhase.doneCount < planWitnessPhase.totalCount) ∧
      (planWitnessPhase.status = "pending" ↔
        ¬(0 < planWitnessPhase.totalCount ∧
            planWitnessPhase.doneCount = planWitnessPhase.totalCount) ∧
        ¬(0 < planWitnessPhase.doneCount ∧
            planWitnessPhase.doneCount < planWitnessPhase.totalCount))) :=
  ⟨by decide,
   (plan_parser_invariants planWitnessContent).2.2 planWitnessPhase (by decide)⟩

/-! ## Process liveness and project status
(`app/utils/process.py`, `app/projects/status.py`) -/

/-- Outcome of `os.kill(pid, 0)`. -/
inductive KillResult
  | ok
  | noSuchProcess
  | permissionDenied
deriving DecidableEq

/-- The OS process table as observed by the liveness helpers: the
outcome of signal 0 and the `/proc/<pid>/stat` zombie flag
(`is_zombie_pid`; a missing or unreadable stat file reads as not a
zombie). -/
structure ProcTable where
  kill0 : Int → KillResult
  zombie : Int → Bool

/-- `is_process_alive` from `app/utils/process.py`: `ProcessLookupError`
means dead, `PermissionError` means alive, otherwise a zombie is dead
and anything else is alive. -/
def isProcessAlive (pt : ProcTable) (pid : Int) : Bool :=
  match pt.kill0 pid with
  | .noSuchProcess => false
  | .permissionDenied => true
  | .ok => if pt.zombie pid then false else true

/-- On-disk state of one project as read by `detect_project_status`:
the PID file (`none` = absent, `some none` = present with unparseable
content, `some (some pid)` = parseable), the pause sentinel, and the
plan file content when present. -/
structure ProjectFiles where
  pidFile : Option (Option Int)
  pauseFileExists : Bool
  planFile : Option (List Char)

/-- `read_pid` from `app/utils/process.py`. -/
def readPidFile (pidFile : Option (Option Int)) : Option Int :=
  match pidFile with
  | none => none
  | some none => none
  | some (some p) => some p

/-- `_is_running` from `app/projects/status.py`.  (The source also
deletes a stale or unparseable PID file as a side effect; that deletion
does not affect the returned value.) -/
def isRunningDir (fs : ProjectFiles) (pt : ProcTable) : Bool :=
  match readPidFile fs.pidFile with
  | none => false
  | some pid => isProcessAlive pt pid

/-- `_is_plan_complete` from `app/projects/status.py`: some line of the
plan file satisfies `line.strip().upper() == "STATUS: COMPLETE"`. -/
def planHasCompleteMarker (planFile : Option (List Char)) : Bool :=
  match planFile with
  | none => false
  | some content =>
    (pySplitlines content).any
      (fun l => (pyStrip l).map Char.toUpper = "STATUS: COMPLETE".toList)

inductive ProjectStatus
  | running
  | paused
  | stopped
  | complete
deriving DecidableEq

/-- `detect_project_status` from `app/projects/status.py`. -/
def detectProjectStatus (fs : ProjectFiles) (pt : ProcTable) : ProjectStatus :=
  if isRunningDir fs pt then
    if fs.pauseFileExists then .paused else .running
  else if planHasCompleteMarker fs.planFile then .complete
  else .stopped

/-- The claim's wording of PID liveness: the OS confirms the process
exists and it is not a zombie, with permission-denied on signalling
treated as alive. -/
def specPidLive (pt : ProcTable) (pid : Int) : Bool :=
  pt.kill0 pid = KillResult.permissionDenied ||
    (pt.kill0 pid = KillResult.ok && !pt.zombie pid)

/-- The claim's notion of a live PID being recorded. -/
def specLivePidRecorded (fs : ProjectFiles) (pt : ProcTable) : Bool :=
  match fs.pidFile with
  | some (some pid) => specPidLive pt pid
  | _ => false

/-- The status computation exactly as the claim words it. -/
def specProjectStatus (fs : ProjectFiles) (pt : ProcTable) : ProjectStatus :=
  if specLivePidRecorded fs pt && fs.pauseFileExists then .paused
  else if specLivePidRecorded fs pt && !fs.pauseFileExists then .running
  else if !specLivePidRecorded fs pt && planHasCompleteMarker fs.planFile then .complete
  else .stopped

/-- C3: for every project directory and OS process table, the computed
status is paused / running / complete / stopped exactly as the claim
states it, with its stated liveness rule (process exists, not a zombie,
permission-denied treated as alive). -/
theorem detect_project_status_matches_spec (fs : ProjectFiles) (pt : ProcTable) :
    detectProjectStatus fs pt = specProjectStatus fs pt := by
  have halive : ∀ pid, isProcessAlive pt pid = specPidLive pt pid := by
    intro pid
    unfold isProcessAlive specPidLive
    cases hk : pt.kill0 pid <;> cases hz : pt.zombie pid <;> simp [hk, hz]
  obtain ⟨pidFile, pause, plan⟩ := fs
  unfold detectProjectStatus specProjectStatus isRunningDir specLivePidRecorded readPidFile
  rcases pidFile with - | op
  · cases pause <;> cases hm : planHasCompleteMarker plan <;> simp [hm]
  · rcases op with - | pid
    · cases pause <;> cases hm : planHasCompleteMarker plan <;> simp [hm]
    · simp only [halive]
      by_cases hb : specPidLive pt pid = true <;>
        cases pause <;> cases hm : planHasCompleteMarker plan <;>
          simp_all

/-! ## String helper lemmas used by the supervisor proofs -/

theorem head?_dropWhile_not (p : Char → Bool) (l : List Char) :
    ∀ c, (l.dropWhile p).head? = some c → p c = false := by
  induction l with
  | nil => simp
  | cons d t ih =>
    intro c
    by_cases hp : p d
    · simp [List.dropWhile_cons, hp]; exact ih c
    · simp [List.dropWhile_cons, hp]; rintro rfl; simpa using hp

theorem pyRStrip_getLast_not_space (s : List Char) :
    ∀ c, (pyRStrip s).getLast? = some c → isPySpace c = false := by
  intro c hc
  unfold pyRStrip at hc
  rw [List.getLast?_reverse] at hc
  exact head?_dropWhile_not _ _ _ hc

theorem pyRStrip_append_newline (z : List Char) : pyRStrip (z ++ ['\n']) = pyRStrip z := by
  unfold pyRStrip
  rw [List.reverse_append]
  simp [List.dropWhile_cons, isPySpace]

theorem pyRStrip_eq_self_of_getLast (z : List Char) (c : Char)
    (h : z.getLast? = some c) (hc : isPySpace c = false) : pyRStrip z = z := by
  unfold pyRStrip
  have hz : z.reverse.head? = some c := by rw [List.head?_reverse]; exact h
  cases hr : z.reverse with
  | nil => rw [hr] at hz; simp at hz
  | cons d t =>
    rw [hr] at hz
    simp at hz
    subst hz
    rw [List.dropWhile_cons_of_neg (by simp [hc])]
    rw [← hr, List.reverse_reverse]

theorem pyStrip_getLast_not_space (s : List Char) :
    ∀ c, (pyStrip s).getLast? = some c → isPySpace c = false := by
  intro c hc
  exact pyRStrip_getLast_not_space _ _ hc

theorem pyRStrip_block (pre s : List Char) (hs : s ≠ [])
    (hlast : ∀ c, s.getLast? = some c → isPySpace c = false) :
    pyRStrip (pre ++ s ++ ['\n']) = pre ++ s := by
  rw [pyRStrip_append_newline]
  obtain ⟨c, hc⟩ := List.getLast?_isSome.mpr hs |> Option.isSome_iff_exists.mp
  apply pyRStrip_eq_self_of_getLast _ c
  · rw [List.getLast?_append_of_ne_nil]
    exact hc
    exact hs
  · exact hlast c hc

/-! ## Process supervisor (`app/control/process_manager.py`) -/

/-- `stop_project_process`: the SIGTERM / grace wait / SIGKILL sequence
of the alive branch is abstracted to its observable outcome (every alive
path removes the PID file and returns `True`); the not-running paths are
modelled exactly.  The returned pair is (result, PID file afterwards). -/
def stopProjectProcess (pidFile : Option (Option Int)) (pt : ProcTable) :
    Bool × Option (Option Int) :=
  match readPidFile pidFile with
  | none => (false, pidFile)
  | some pid =>
    if !(isProcessAlive pt pid) then (false, none)
    else (true, none)

/-- C7: for every project whose PID file is absent, or whose recorded
PID does not refer to a live process, stop returns the "not running"
result `false` without raising, and afterwards no PID file exists. -/
theorem stop_not_running_no_pid_file (pidFile : Option (Option Int)) (pt : ProcTable)
    (h : pidFile = none ∨ ∃ p, pidFile = some (some p) ∧ isProcessAlive pt p = false) :
    stopProjectProcess pidFile pt = (false, none) := by
  rcases h with rfl | ⟨p, rfl, hdead⟩
  · rfl
  · simp [stopProjectProcess, readPidFile, hdead]

theorem stop_not_running_no_pid_file_witness :
    stopProjectProcess none ⟨fun _ => KillResult.noSuchProcess, fun _ => false⟩
      = (false, none) :=
  stop_not_running_no_pid_file none _ (Or.inl rfl)

/-- `inject_project_message`: returns the outcome (validation error or
the payload written) together with the new `.ralph/inject.md` content;
a validation error leaves the file untouched. -/
def injectProjectMessage (message : List Char) (injectFile : Option (List Char)) :
    Except Unit (List Char) × Option (List Char) :=
  let content := pyStrip message
  if content.isEmpty then (Except.error (), injectFile)
  else
    let payload :=
      match injectFile with
      | some existing =>
        let ex := pyRStrip existing
        if ex.isEmpty then content ++ ['\n']
        else ex ++ ['\n', '\n'] ++ content ++ ['\n']
      | none => content ++ ['\n']
    (Except.ok payload, some payload)

/-- C8: a whitespace-only message fails validation and leaves the
side-channel file unchanged, and injecting two non-blank messages in
sequence yields a file containing both (stripped) messages separated by
a blank line. -/
theorem inject_validation_and_append (ws a b : List Char) (file : Option (List Char))
    (hw : pyStrip ws = []) (ha : pyStrip a ≠ []) (hb : pyStrip b ≠ []) :
    injectProjectMessage ws file = (Except.error (), file) ∧
    ∃ pre, (injectProjectMessage b (injectProjectMessage a file).2).2
      = some (pre ++ pyStrip a ++ ['\n', '\n'] ++ pyStrip b ++ ['\n']) := by
  constructor
  · simp [injectProjectMessage, hw]
  · have hshape : ∃ pre, (injectProjectMessage a file).2 = some (pre ++ pyStrip a ++ ['\n']) := by
      rcases file with - | existing
      · exact ⟨[], by simp [injectProjectMessage, ha]⟩
      · by_cases hex : (pyRStrip existing).isEmpty
        · exact ⟨[], by simp [injectProjectMessage, ha, hex]⟩
        · refine ⟨pyRStrip existing ++ ['\n', '\n'], ?_⟩
          simp [injectProjectMessage, ha, hex]
    obtain ⟨pre, hpre⟩ := hshape
    refine ⟨pre, ?_⟩
    rw [hpre]
    have hr : pyRStrip (pre ++ (pyStrip a ++ ['\n'])) = pre ++ pyStrip a := by
      rw [← List.append_assoc]
      exact pyRStrip_block pre (pyStrip a) ha (pyStrip_getLast_not_space a)
    have hne : pre ++ pyStrip a ≠ [] := by
      intro h
      exact ha (List.append_eq_nil.mp h).2
    simp [injectProjectMessage, hb, hr, hne]

theorem inject_validation_and_append_witness :
    pyStrip "  ".toList = [] ∧ pyStrip "do X".toList ≠ [] ∧ pyStrip "do Y".toList ≠ [] ∧
    (injectProjectMessage "  ".toList none = (Except.error (), none) ∧
      ∃ pre, (injectProjectMessage "do Y".toList
          (injectProjectMessage "do X".toList none).2).2
        = some (pre ++ pyStrip "do X".toList ++ ['\n', '\n'] ++ pyStrip "do Y".toList ++ ['\n'])) :=
  ⟨by decide, by decide, by decide,
   inject_validation_and_append "  ".toList "do X".toList "do Y".toList none
     (by decide) (by decide) (by decide)⟩

/-! ## Realtime hub (`app/ws/hub.py`)

Connections are identified by naturals; `sendOk c = false` models
`websocket.send_json` raising for connection `c` during this broadcast. -/

structure HubState where
  connections : List Nat
  subscriptions : List (Nat × List String)

/-- `self._subscriptions.get(websocket, set())`. -/
def subsOf (h : HubState) (c : Nat) : List String :=
  match h.subscriptions.lookup c with
  | some s => s
  | none => []

/-- `disconnect`: drop the connection from the registry and its
subscription set. -/
def hubDisconnect (h : HubState) (c : Nat) : HubState :=
  { connections := h.connections.filter (fun x => x ≠ c),
    subscriptions := h.subscriptions.filter (fun kv => kv.1 ≠ c) }

/-- Target selection inside `broadcast` (computed under the lock). -/
def broadcastTargets (h : HubState) (project : Option String) : List Nat :=
  match project with
  | none => h.connections
  | some p => h.connections.filter (fun c => (subsOf h c).contains p)

/-- `broadcast`: send to every target, collect per-connection failures,
then disconnect the failed ones.  Returns the hub afterwards and the
list of connections whose send succeeded. -/
def hubBroadcast (h : HubState) (project : Option String) (sendOk : Nat → Bool) :
    HubState × List Nat :=
  let targets := broadcastTargets h project
  let failed := targets.filter (fun c => !(sendOk c))
  let delivered := targets.filter (fun c => sendOk c)
  (failed.foldl hubDisconnect h, delivered)

theorem mem_foldl_hubDisconnect (L : List Nat) (h : HubState) (c : Nat) :
    c ∈ (L.foldl hubDisconnect h).connections ↔ c ∈ h.connections ∧ c ∉ L := by
  induction L generalizing h with
  | nil => simp
  | cons a t ih =>
    simp only [List.foldl_cons, ih, hubDisconnect, List.mem_filter, List.mem_cons]
    constructor
    · rintro ⟨⟨hc, hne⟩, ht⟩
      simp at hne
      exact ⟨hc, by rintro (rfl | hmem) <;> simp_all⟩
    · rintro ⟨hc, hall⟩
      refine ⟨⟨hc, ?_⟩, fun hmem => hall (Or.inr hmem)⟩
      simp
      rintro rfl
      exact hall (Or.inl rfl)

/-- C9: in a broadcast, exactly the connections whose individual send
failed are removed from the registry, and every other target still
receives the payload. -/
theorem broadcast_isolates_failures (h : HubState) (project : Option String)
    (sendOk : Nat → Bool) :
    (∀ c, c ∈ (hubBroadcast h project sendOk).1.connections ↔
        (c ∈ h.connections ∧ ¬(c ∈ broadcastTargets h project ∧ sendOk c = false))) ∧
    (∀ c, c ∈ broadcastTargets h project → sendOk c = true →
        c ∈ (hubBroadcast h project sendOk).2) := by
  constructor
  · intro c
    unfold hubBroadcast
    rw [mem_foldl_hubDisconnect]
    simp [List.mem_filter]
  · intro c hc hok
    unfold hubBroadcast
    simp [List.mem_filter, hc, hok]

def hubWitnessState : HubState :=
  { connections := [1, 2], subscriptions := [(1, ["p"]), (2, ["p"])] }

theorem broadcast_isolates_failures_witness :
    2 ∈ broadcastTargets hubWitnessState (some "p") ∧
    (fun c => c != 1) 2 = true ∧
    2 ∈ (hubBroadcast hubWitnessState (some "p") (fun c => c != 1)).2 :=
  ⟨by decide, by decide,
   (broadcast_isolates_failures hubWitnessState (some "p") (fun c => c != 1)).2 2
     (by decide) (by decide)⟩

/-! ## Iteration ledger dispatch
(`WatcherEventDispatcher._handle_iterations_change`)

A ledger line is `some r` when `json.loads` succeeds on it and `none`
when it fails; the bounded tail seek of `_read_last_jsonl_record`
(last 4096 bytes, `strip().splitlines()`, parse the final line) is
modelled as reading the file's last line.  Of the record's JSON fields
only `iteration` determines which events are emitted, so the record
model carries just that field. -/

structure IterRecord where
  iteration : Option Int
deriving DecidableEq

inductive IterEvent
  | started (n : Int)
  | completed (n : Int)
deriving DecidableEq

/-- `_read_last_jsonl_record`: `None` for an empty file or when the last
line fails to parse. -/
def readLastJsonlRecord (file : List (Option IterRecord)) : Option IterRecord :=
  match file.getLast? with
  | none => none
  | some l => l

/-- The `started_iterations` / `completed_iterations` dictionary entries
for the project being handled. -/
structure IterState where
  started : List Int
  completed : List Int
deriving DecidableEq

/-- `_handle_iterations_change`: read the last ledger record and emit
`iteration_started` / `iteration_completed` for its iteration number
unless the corresponding set already contains it. -/
def handleIterationsChange (st : IterState) (file : List (Option IterRecord)) :
    IterState × List IterEvent :=
  match readLastJsonlRecord file with
  | none => (st, [])
  | some rec =>
    match rec.iteration with
    | none => (st, [])
    | some n =>
      ({ started := if n ∈ st.started then st.started else n :: st.started,
         completed := if n ∈ st.completed then st.completed else n :: st.completed },
       (if n ∈ st.started then [] else [IterEvent.started n]) ++
         (if n ∈ st.completed then [] else [IterEvent.completed n]))

/-- A step of a ledger run: the agent loop appends a line, or a
file-change event fires and the dispatcher handles it. -/
inductive IterStep
  | appendLine (l : Option IterRecord)
  | fire
deriving DecidableEq

structure IterRun where
  file : List (Option IterRecord)
  st : IterState
  events : List IterEvent
deriving DecidableEq

def iterStep (r : IterRun) : IterStep → IterRun
  | .appendLine l => { r with file := r.file ++ [l] }
  | .fire =>
    let out := handleIterationsChange r.st r.file
    { r with st := out.1, events := r.events ++ out.2 }

def iterRun0 : IterRun := { file := [], st := { started := [], completed := [] }, events := [] }

def runIterations (steps : List IterStep) : IterRun := steps.foldl iterStep iterRun0

/-- Whether some fire step observes the ledger's last line as a parsed
record with iteration number `n`. -/
def iterObservedAux (n : Int) : List (Option IterRecord) → List IterStep → Bool
  | _, [] => false
  | file, .appendLine l :: rest => iterObservedAux n (file ++ [l]) rest
  | file, .fire :: rest =>
    (match readLastJsonlRecord file with
     | some r => r.iteration == some n
     | none => false) || iterObservedAux n file rest

def iterObserved (n : Int) (steps : List IterStep) : Bool := iterObservedAux n [] steps

theorem handleIterationsChange_none (st : IterState) (file : List (Option IterRecord))
    (h : readLastJsonlRecord file = none) :
    handleIterationsChange st file = (st, []) := by
  unfold handleIterationsChange; rw [h]

theorem handleIterationsChange_noIter (st : IterState) (file : List (Option IterRecord))
    (rec : IterRecord) (h : readLastJsonlRecord file = some rec) (hi : rec.iteration = none) :
    handleIterationsChange st file = (st, []) := by
  unfold handleIterationsChange; rw [h]; dsimp only; rw [hi]

theorem handleIterationsChange_iter (st : IterState) (file : List (Option IterRecord))
    (rec : IterRecord) (n : Int) (h : readLastJsonlRecord file = some rec)
    (hi : rec.iteration = some n) :
    handleIterationsChange st file =
      ({ started := if n ∈ st.started then st.started else n :: st.started,
         completed := if n ∈ st.completed then st.completed else n :: st.completed },
       (if n ∈ st.started then [] else [IterEvent.started n]) ++
         (if n ∈ st.completed then [] else [IterEvent.completed n])) := by
  unfold handleIterationsChange; rw [h]; dsimp only; rw [hi]

/-- Per-iteration event counts agree with set membership: each
iteration number has emitted exactly one `started` (resp. `completed`)
event iff it is in the corresponding dedupe set. -/
def iterCountInv (r : IterRun) : Prop :=
  ∀ m : Int,
    r.events.count (IterEvent.started m) = (if m ∈ r.st.started then 1 else 0) ∧
    r.events.count (IterEvent.completed m) = (if m ∈ r.st.completed then 1 else 0)

theorem iterStep_fire_eq (r : IterRun) :
    iterStep r IterStep.fire =
      { r with st := (handleIterationsChange r.st r.file).1,
               events := r.events ++ (handleIterationsChange r.st r.file).2 } := rfl

theorem iterStep_inv (r : IterRun) (s : IterStep) (h : iterCountInv r) :
    iterCountInv (iterStep r s) := by
  cases s with
  | appendLine l => exact h
  | fire =>
    rw [iterStep_fire_eq]
    cases hlast : readLastJsonlRecord r.file with
    | none =>
      rw [handleIterationsChange_none r.st r.file hlast]
      intro m
      simpa using h m
    | some rec =>
      cases hi : rec.iteration with
      | none =>
        rw [handleIterationsChange_noIter r.st r.file rec hlast hi]
        intro m
        simpa using h m
      | some n =>
        rw [handleIterationsChange_iter r.st r.file rec n hlast hi]
        intro m
        obtain ⟨h1, h2⟩ := h m
        by_cases hs : n ∈ r.st.started <;> by_cases hc : n ∈ r.st.completed <;>
          by_cases hmn : m = n <;>
            simp_all [List.count_append, List.count_cons]

theorem iterStep_mono (r : IterRun) (s : IterStep) (n : Int) :
    (n ∈ r.st.started → n ∈ (iterStep r s).st.started) ∧
    (n ∈ r.st.completed → n ∈ (iterStep r s).st.completed) := by
  cases s with
  | appendLine l => exact ⟨id, id⟩
  | fire =>
    rw [iterStep_fire_eq]
    cases hlast : readLastJsonlRecord r.file with
    | none => rw [handleIterationsChange_none r.st r.file hlast]; exact ⟨id, id⟩
    | some rec =>
      cases hi : rec.iteration with
      | none => rw [handleIterationsChange_noIter r.st r.file rec hlast hi]; exact ⟨id, id⟩
      | some k =>
        rw [handleIterationsChange_iter r.st r.file rec k hlast hi]
        constructor <;> intro hmem <;>
          [by_cases hs : k ∈ r.st.started; by_cases hs : k ∈ r.st.completed] <;>
            simp [hs, hmem]

theorem foldl_iterStep_mono (steps : List IterStep) (r : IterRun) (n : Int) :
    (n ∈ r.st.started → n ∈ (steps.foldl iterStep r).st.started) ∧
    (n ∈ r.st.completed → n ∈ (steps.foldl iterStep r).st.completed) := by
  induction steps generalizing r with
  | nil => exact ⟨id, id⟩
  | cons s rest ih =>
    refine ⟨fun h => ?_, fun h => ?_⟩
    · exact (ih (iterStep r s)).1 ((iterStep_mono r s n).1 h)
    · exact (ih (iterStep r s)).2 ((iterStep_mono r s n).2 h)

theorem observed_mem (steps : List IterStep) (n : Int) :
    ∀ (r : IterRun), iterObservedAux n r.file steps = true →
      n ∈ (steps.foldl iterStep r).st.started ∧ n ∈ (steps.foldl iterStep r).st.completed := by
  induction steps with
  | nil => intro r h; simp [iterObservedAux] at h
  | cons s rest ih =>
    intro r h
    cases s with
    | appendLine l =>
      simp only [iterObservedAux] at h
      exact ih (iterStep r (IterStep.appendLine l)) h
    | fire =>
      simp only [iterObservedAux, Bool.or_eq_true] at h
      rcases h with hnow | hrest
      · have hmem : n ∈ (iterStep r IterStep.fire).st.started ∧
            n ∈ (iterStep r IterStep.fire).st.completed := by
          cases hlast : readLastJsonlRecord r.file with
          | none => rw [hlast] at hnow; simp at hnow
          | some rec =>
            rw [hlast] at hnow
            have hit : rec.iteration = some n := by simpa using hnow
            rw [iterStep_fire_eq, handleIterationsChange_iter r.st r.file rec n hlast hit]
            constructor <;>
              [by_cases hs : n ∈ r.st.started; by_cases hs : n ∈ r.st.completed] <;>
                simp [hs]
        simp only [List.foldl_cons]
        exact ⟨(foldl_iterStep_mono rest _ n).1 hmem.1,
               (foldl_iterStep_mono rest _ n).2 hmem.2⟩
      · exact ih (iterStep r IterStep.fire) hrest

theorem run_iterations_inv (steps : List IterStep) : iterCountInv (runIterations steps) := by
  have gen : ∀ (ss : List IterStep) (r : IterRun), iterCountInv r →
      iterCountInv (ss.foldl iterStep r) := by
    intro ss
    induction ss with
    | nil => exact fun r h => h
    | cons s rest ih => exact fun r h => ih _ (iterStep_inv r s h)
  exact gen steps iterRun0 (fun m => by simp [iterRun0])

/-- C2 (amended): over any run of ledger appends and change events, at
most one `iteration_started` and at most one `iteration_completed`
event is emitted per iteration number, and exactly one of each for
every iteration number observed as the parsed last ledger line at some
change event; repeated events for unchanged content add nothing.  (A
ledger line never observed as the last line produces no events.) -/
theorem iteration_events_amended (steps : List IterStep) (n : Int)
    (h : iterObserved n steps = true) :
    (runIterations steps).events.count (IterEvent.started n) = 1 ∧
    (runIterations steps).events.count (IterEvent.completed n) = 1 ∧
    ∀ m : Int, (runIterations steps).events.count (IterEvent.started m) ≤ 1 ∧
               (runIterations steps).events.count (IterEvent.completed m) ≤ 1 := by
  have hinv := run_iterations_inv steps
  have hmem : n ∈ (runIterations steps).st.started ∧ n ∈ (runIterations steps).st.completed :=
    observed_mem steps n iterRun0 h
  obtain ⟨h1, h2⟩ := hinv n
  refine ⟨?_, ?_, ?_⟩
  · rw [h1]; simp [hmem.1]
  · rw [h2]; simp [hmem.2]
  · intro m
    obtain ⟨g1, g2⟩ := hinv m
    constructor
    · rw [g1]; split <;> omega
    · rw [g2]; split <;> omega

def c2Sched : List IterStep :=
  [IterStep.appendLine (some ⟨some 1⟩), IterStep.appendLine (some ⟨some 2⟩), IterStep.fire]

/-- C2 (counterexample): two ledger lines (iterations 1 and 2) are
appended before a single change event fires; the line with iteration 1
is present in the file, yet zero `iteration_started` events are emitted
for it — refuting "exactly one `iteration_started` for every ledger
line ever present, no matter how many change events fire". -/
theorem iteration_started_skipped_counterexample :
    (some (⟨some 1⟩ : IterRecord)) ∈ (runIterations c2Sched).file ∧
    (runIterations c2Sched).events.count (IterEvent.started 1) = 0 ∧
    (runIterations c2Sched).events.count (IterEvent.started 2) = 1 := by decide

theorem iteration_events_amended_witness :
    iterObserved 3 [IterStep.appendLine (some ⟨some 3⟩), IterStep.fire] = true ∧
    ((runIterations [IterStep.appendLine (some ⟨some 3⟩), IterStep.fire]).events.count
        (IterEvent.started 3) = 1 ∧
      (runIterations [IterStep.appendLine (some ⟨some 3⟩), IterStep.fire]).events.count
        (IterEvent.completed 3) = 1 ∧
      ∀ m : Int,
        (runIterations [IterStep.appendLine (some ⟨some 3⟩), IterStep.fire]).events.count
          (IterEvent.started m) ≤ 1 ∧
        (runIterations [IterStep.appendLine (some ⟨some 3⟩), IterStep.fire]).events.count
          (IterEvent.completed m) ≤ 1) :=
  ⟨by decide,
   iteration_events_amended [IterStep.appendLine (some ⟨some 3⟩), IterStep.fire] 3 (by decide)⟩

/-! ## Notification parsing and dedupe
(`app/notifications/service.py`, `WatcherEventDispatcher._handle_notification_change`)

The pending-notification file is modelled as the `json.loads`
classification of its stripped content: legacy free text (JSON parse
fails), a JSON object (with the fields `_entry_from_payload` reads;
`iteration` is carried post `_coerce_int`), or valid JSON that is not an
object.  `_fallback_timestamp` derives a timestamp from the file's
mtime; it is modelled as an injective rendering of the mtime. -/

structure NotifPayload where
  message : List Char
  pfxField : Option (List Char)
  timestampField : Option (List Char)
  statusField : Option (List Char)
  iterationField : Option Int
  detailsField : Option (List Char)
deriving DecidableEq

inductive NotifContent
  | legacyText (s : List Char)
  | jsonObj (p : NotifPayload)
  | jsonNonDict
deriving DecidableEq

structure NotifEntry where
  timestamp : List Char
  pfx : Option (List Char)
  message : List Char
  statusVal : Option (List Char)
  iteration : Option Int
  details : Option (List Char)
  source : List Char
deriving DecidableEq

/-- `_fallback_timestamp`: ISO rendering of the file mtime. -/
def fallbackTimestamp (mtime : Nat) : List Char := Nat.toDigits 10 mtime

/-- Character class `[A-Z_]` of `MESSAGE_PREFIX_RE`. -/
def isUpperOrUnd (c : Char) : Bool := ('A' ≤ c && c ≤ 'Z') || c = '_'

/-- `_parse_message`: match `^(?P<prefix>[A-Z_]+):\s*(?P<body>.+)$`
against the stripped message; on a match return the prefix tag and
body, else no tag and the stripped message.  (Inputs are stripped, so
`$` can only match at the end; a body containing a newline cannot
match.) -/
def parseMessage (rawMessage : List Char) : Option (List Char) × List Char :=
  let m := pyStrip rawMessage
  let p := m.takeWhile isUpperOrUnd
  let rest := m.dropWhile isUpperOrUnd
  if p ≠ [] ∧ rest.head? = some ':' then
    let body := (rest.drop 1).dropWhile isPySpace
    if body ≠ [] ∧ ¬ body.contains '\n' then (some p, body)
    else (none, m)
  else (none, m)

/-- `_entry_from_payload`. -/
def entryFromPayload (p : NotifPayload) (source : List Char) (fallback : List Char) :
    NotifEntry :=
  let rawMessage := pyStrip p.message
  let parsed := parseMessage rawMessage
  let pfx :=
    match p.pfxField with
    | some pp => if (pyStrip pp).isEmpty then parsed.1 else some (pyStrip pp)
    | none => parsed.1
  let timestamp :=
    match p.timestampField with
    | some t => if t.isEmpty then fallback else t
    | none => fallback
  { timestamp := timestamp, pfx := pfx, message := parsed.2,
    statusVal := p.statusField, iteration := p.iterationField,
    details := p.detailsField, source := source }

/-- `parse_notification_file` for an existing file with the given
(stripped) content classification and mtime. -/
def parseNotificationFile (content : Option NotifContent) (mtime : Nat) : Option NotifEntry :=
  match content with
  | none => none
  | some (.legacyText s) =>
    let stripped := pyStrip s
    if stripped.isEmpty then none
    else
      let parsed := parseMessage stripped
      some { timestamp := fallbackTimestamp mtime, pfx := parsed.1, message := parsed.2,
             statusVal := some "unknown".toList, iteration := none, details := none,
             source := "pending-notification.txt".toList }
  | some (.jsonObj p) =>
    some (entryFromPayload p "pending-notification.txt".toList (fallbackTimestamp mtime))
  | some .jsonNonDict => none

/-- The dedupe key `(timestamp, message, prefix, iteration)`. -/
def notifKeyOf (e : NotifEntry) : List Char × List Char × Option (List Char) × Option Int :=
  (e.timestamp, e.message, e.pfx, e.iteration)

/-- `_handle_notification_change`: parse the pending-notification file,
compute the dedupe key, and emit a `notification` event only when the
key differs from the last one seen.  Returns the new
`_last_notification_keys` entry and the emitted events. -/
def handleNotificationChange
    (lastKey : Option (List Char × List Char × Option (List Char) × Option Int))
    (content : Option NotifContent) (mtime : Nat) :
    Option (List Char × List Char × Option (List Char) × Option Int) × List NotifEntry :=
  match parseNotificationFile content mtime with
  | none => (lastKey, [])
  | some entry =>
    if lastKey = some (notifKeyOf entry) then (lastKey, [])
    else (some (notifKeyOf entry), [entry])

def c6Content : NotifContent := NotifContent.legacyText "ERROR: disk full".toList

/-- C6 (counterexample): the pending-notification file holds the same
legacy `PREFIX: text` content at both observations, but its mtime
differs (the file was rewritten with identical contents); the fallback
timestamp enters the dedupe key, so both observations emit — two
notification events for the pair, refuting "exactly one". -/
theorem notification_dedupe_mtime_counterexample :
    (handleNotificationChange none (some c6Content) 1).2.length = 1 ∧
    (handleNotificationChange
        (handleNotificationChange none (some c6Content) 1).1
        (some c6Content) 2).2.length = 1 := by decide

/-- The parse of a JSON pending-notification payload carrying an
explicit non-empty `timestamp` field does not depend on the file
mtime: the fallback timestamp is never consulted. -/
theorem parseNotificationFile_json_mtime_indep (p : NotifPayload) (t : List Char)
    (ht : p.timestampField = some t) (hne : ¬ t.isEmpty = true) (m1 m2 : Nat) :
    parseNotificationFile (some (NotifContent.jsonObj p)) m1
      = parseNotificationFile (some (NotifContent.jsonObj p)) m2 := by
  unfold parseNotificationFile entryFromPayload
  dsimp only
  rw [ht]
  dsimp only
  simp only [if_neg hne]

/-- C6 (amended): if the pending-notification file is observed twice in
a row with identical contents and the parsed timestamp is unchanged —
for a JSON payload with an explicit non-empty `timestamp` field always
(in particular across an mtime change, the rewrite case), otherwise
when the file mtime is unchanged — and the first observation is not
itself suppressed by an earlier identical key, then exactly one
notification event is emitted for the pair: the first observation
emits it and the second is suppressed by the dedupe key
`(timestamp, message, prefix, iteration)`. -/
theorem notification_dedupe_amended
    (lastKey : Option (List Char × List Char × Option (List Char) × Option Int))
    (content : Option NotifContent) (m1 m2 : Nat) (entry : NotifEntry)
    (hparse : parseNotificationFile content m1 = some entry)
    (hfresh : lastKey ≠ some (notifKeyOf entry))
    (hstable : m2 = m1 ∨ ∃ p t, content = some (NotifContent.jsonObj p) ∧
        p.timestampField = some t ∧ ¬ t.isEmpty = true) :
    (handleNotificationChange lastKey content m1).2 = [entry] ∧
    (handleNotificationChange
        (handleNotificationChange lastKey content m1).1 content m2).2 = [] := by
  have hparse2 : parseNotificationFile content m2 = some entry := by
    rcases hstable with rfl | ⟨p, t, rfl, ht, hne⟩
    · exact hparse
    · rw [parseNotificationFile_json_mtime_indep p t ht hne m2 m1]
      exact hparse
  unfold handleNotificationChange
  rw [hparse, hparse2]
  simp [hfresh]

def c6WitnessPayload : NotifPayload :=
  { message := "ERROR: disk full".toList, pfxField := none,
    timestampField := some "2024-01-01T00:00:00Z".toList, statusField := none,
    iterationField := some 3, detailsField := none }

def c6WitnessEntry : NotifEntry :=
  { timestamp := "2024-01-01T00:00:00Z".toList, pfx := some "ERROR".toList,
    message := "disk full".toList, statusVal := none, iteration := some 3, details := none,
    source := "pending-notification.txt".toList }

theorem notification_dedupe_amended_witness :
    parseNotificationFile (some (NotifContent.jsonObj c6WitnessPayload)) 5
        = some c6WitnessEntry ∧
    (none : Option (List Char × List Char × Option (List Char) × Option Int))
        ≠ some (notifKeyOf c6WitnessEntry) ∧
    ((handleNotificationChange none (some (NotifContent.jsonObj c6WitnessPayload)) 5).2
        = [c6WitnessEntry] ∧
      (handleNotificationChange
          (handleNotificationChange none (some (NotifContent.jsonObj c6WitnessPayload)) 5).1
          (some (NotifContent.jsonObj c6WitnessPayload)) 9).2 = []) :=
  ⟨by decide, by decide,
   notification_dedupe_amended none (some (NotifContent.jsonObj c6WitnessPayload)) 5 9
     c6WitnessEntry (by decide) (by decide)
     (Or.inr ⟨c6WitnessPayload, "2024-01-01T00:00:00Z".toList, rfl, rfl, by decide⟩)⟩

/-! ## Watch layer reconciliation (`FileWatcherService.refresh_projects`)

`watchable path` models `_start_observer` succeeding for a project root
(the directory exists, is a directory, and `observer.schedule`/`start`
raises no `OSError`); `running = false` models a stopped service
(`self._loop is None`).  `refreshAdd` is the body of the addition loop
in `refresh_projects`.  -/

structure WatcherSt where
  running : Bool
  observers : List String
  projectPaths : List (String × String)
deriving DecidableEq

def startObserver (watchable : String → Bool) (st : WatcherSt) (pid path : String) : WatcherSt :=
  if !st.running then st
  else if !(watchable path) then st
  else { st with observers := st.observers ++ [pid],
                 projectPaths := st.projectPaths ++ [(pid, path)] }

def stopObserver (st : WatcherSt) (pid : String) : WatcherSt :=
  { st with observers := st.observers.filter (fun x => x ≠ pid),
            projectPaths := st.projectPaths.filter (fun kv => kv.1 ≠ pid) }

def refreshAdd (watchable : String → Bool) (s : WatcherSt) (d : String × String) : WatcherSt :=
  if s.observers.contains d.1 then s else startObserver watchable s d.1 d.2

def refreshProjects (watchable : String → Bool) (st : WatcherSt)
    (desired : List (String × String)) : WatcherSt :=
  if !st.running then st
  else
    let stale := st.observers.filter (fun pid => !(desired.any (fun d => d.1 = pid)))
    let st1 := stale.foldl stopObserver st
    desired.foldl (refreshAdd watchable) st1

theorem stopObserver_running (st : WatcherSt) (pid : String) :
    (stopObserver st pid).running = st.running := rfl

theorem startObserver_running (w : String → Bool) (st : WatcherSt) (pid path : String) :
    (startObserver w st pid path).running = st.running := by
  unfold startObserver
  split <;> [rfl; split <;> rfl]

theorem refreshAdd_running (w : String → Bool) (st : WatcherSt) (d : String × String) :
    (refreshAdd w st d).running = st.running := by
  unfold refreshAdd
  split <;> [rfl; exact startObserver_running w st d.1 d.2]

theorem foldl_stopObserver_running (L : List String) (st : WatcherSt) :
    (L.foldl stopObserver st).running = st.running := by
  induction L generalizing st with
  | nil => rfl
  | cons a t ih => rw [List.foldl_cons, ih, stopObserver_running]

theorem foldl_refreshAdd_running (w : String → Bool) (D : List (String × String))
    (st : WatcherSt) : (D.foldl (refreshAdd w) st).running = st.running := by
  induction D generalizing st with
  | nil => rfl
  | cons d t ih => rw [List.foldl_cons, ih, refreshAdd_running]

theorem mem_foldl_stopObserver (L : List String) (st : WatcherSt) (pid : String) :
    pid ∈ (L.foldl stopObserver st).observers ↔ pid ∈ st.observers ∧ pid ∉ L := by
  induction L generalizing st with
  | nil => simp
  | cons a t ih =>
    simp only [List.foldl_cons, ih, stopObserver, List.mem_filter, List.mem_cons]
    constructor
    · rintro ⟨⟨hmem, hne⟩, ht⟩
      simp at hne
      exact ⟨hmem, by rintro (rfl | hm) <;> simp_all⟩
    · rintro ⟨hmem, hall⟩
      refine ⟨⟨hmem, ?_⟩, fun hm => hall (Or.inr hm)⟩
      simp
      rintro rfl
      exact hall (Or.inl rfl)

theorem refreshAdd_mem (w : String → Bool) (st : WatcherSt) (d1 d2 : String) (pid : String)
    (hrun : st.running = true) :
    (pid ∈ (refreshAdd w st (d1, d2)).observers ↔
      pid ∈ st.observers ∨ (pid = d1 ∧ w d2 = true)) := by
  unfold refreshAdd startObserver
  by_cases hc : st.observers.contains d1
  · rw [if_pos hc]
    have hd1 : d1 ∈ st.observers := by rw [← List.elem_iff]; exact hc
    constructor
    · exact Or.inl
    · rintro (h | ⟨rfl, -⟩)
      · exact h
      · exact hd1
  · rw [if_neg hc, hrun]
    by_cases hw : w d2 = true
    · simp [hw]
    · simp [hw]

theorem mem_foldl_refreshAdd (w : String → Bool) (D : List (String × String)) :
    ∀ (st : WatcherSt), st.running = true → ∀ pid,
      (pid ∈ (D.foldl (refreshAdd w) st).observers ↔
        pid ∈ st.observers ∨ ∃ path, (pid, path) ∈ D ∧ w path = true) := by
  induction D with
  | nil => intro st hrun pid; simp
  | cons d t ih =>
    obtain ⟨d1, d2⟩ := d
    intro st hrun pid
    rw [List.foldl_cons]
    have hrun1 : (refreshAdd w st (d1, d2)).running = true := by
      rw [refreshAdd_running]; exact hrun
    rw [ih (refreshAdd w st (d1, d2)) hrun1 pid, refreshAdd_mem w st d1 d2 pid hrun]
    constructor
    · rintro ((h | ⟨rfl, hw⟩) | ⟨path, hp, hw⟩)
      · exact Or.inl h
      · exact Or.inr ⟨d2, by simp, hw⟩
      · exact Or.inr ⟨path, by simp [hp], hw⟩
    · rintro (h | ⟨path, hp, hw⟩)
      · exact Or.inl (Or.inl h)
      · simp only [List.mem_cons, Prod.mk.injEq] at hp
        rcases hp with ⟨rfl, rfl⟩ | hmem
        · exact Or.inl (Or.inr ⟨rfl, hw⟩)
        · exact Or.inr ⟨path, hmem, hw⟩


theorem refreshProjects_running (w : String → Bool) (st : WatcherSt)
    (desired : List (String × String)) :
    (refreshProjects w st desired).running = st.running := by
  unfold refreshProjects
  split
  · rfl
  · rw [foldl_refreshAdd_running, foldl_stopObserver_running]

theorem foldl_fixed {α β : Type} (f : α → β → α) (s : α) :
    ∀ (D : List β), (∀ d ∈ D, f s d = s) → D.foldl f s = s := by
  intro D
  induction D with
  | nil => intro _; rfl
  | cons d t ih =>
    intro h
    rw [List.foldl_cons, h d (by simp)]
    exact ih (fun x hx => h x (by simp [hx]))

theorem refresh_mem (w : String → Bool) (st : WatcherSt) (desired : List (String × String))
    (hrun : st.running = true)
    (hold : ∀ pid ∈ st.observers, ∀ path, (pid, path) ∈ desired → w path = true) :
    ∀ pid, pid ∈ (refreshProjects w st desired).observers ↔
      ∃ path, (pid, path) ∈ desired ∧ w path = true := by
  intro pid
  unfold refreshProjects
  rw [if_neg (by simp [hrun])]
  have hrun1 : ((st.observers.filter
      (fun pid => !(desired.any (fun d => d.1 = pid)))).foldl stopObserver st).running = true := by
    rw [foldl_stopObserver_running]; exact hrun
  rw [mem_foldl_refreshAdd w desired _ hrun1 pid]
  rw [mem_foldl_stopObserver]
  constructor
  · rintro (⟨hmem, hnst⟩ | hex)
    · have hany : desired.any (fun d => d.1 = pid) = true := by
        by_contra hno
        exact hnst (List.mem_filter.mpr ⟨hmem, by simp [hno]⟩)
      obtain ⟨d, hd, hk⟩ := List.any_eq_true.mp hany
      have hk2 : d.1 = pid := by simpa using hk
      refine ⟨d.2, ?_, hold pid hmem d.2 ?_⟩
      · rw [← hk2]; exact hd
      · rw [← hk2]; exact hd
    · exact hex
  · rintro ⟨path, hp, hw⟩
    by_cases hmem : pid ∈ st.observers
    · left
      refine ⟨hmem, fun hstale => ?_⟩
      have := (List.mem_filter.mp hstale).2
      have hany : desired.any (fun d => d.1 = pid) = true :=
        List.any_eq_true.mpr ⟨(pid, path), hp, by simp⟩
      simp [hany] at this
    · right; exact ⟨path, hp, hw⟩

theorem refreshProjects_eq_of_running (w : String → Bool) (st : WatcherSt)
    (desired : List (String × String)) (h : st.running = true) :
    refreshProjects w st desired =
      desired.foldl (refreshAdd w)
        ((st.observers.filter (fun pid => !(desired.any (fun d => d.1 = pid)))).foldl
          stopObserver st) := by
  unfold refreshProjects
  rw [if_neg (by simp [h])]

theorem refresh_idem (w : String → Bool) (st : WatcherSt) (desired : List (String × String))
    (hrun : st.running = true)
    (hold : ∀ pid ∈ st.observers, ∀ path, (pid, path) ∈ desired → w path = true) :
    refreshProjects w (refreshProjects w st desired) desired
      = refreshProjects w st desired := by
  have hmem := refresh_mem w st desired hrun hold
  have hrun2 : (refreshProjects w st desired).running = true := by
    rw [refreshProjects_running]; exact hrun
  have hstale : (refreshProjects w st desired).observers.filter
      (fun pid => !(desired.any (fun d => d.1 = pid))) = [] := by
    rw [List.filter_eq_nil_iff]
    intro pid hpid
    obtain ⟨path, hp, -⟩ := (hmem pid).mp hpid
    have hany : desired.any (fun d => d.1 = pid) = true :=
      List.any_eq_true.mpr ⟨(pid, path), hp, by simp⟩
    simp [hany]
  rw [refreshProjects_eq_of_running w (refreshProjects w st desired) desired hrun2]
  rw [hstale]
  simp only [List.foldl_nil]
  apply foldl_fixed
  rintro ⟨d1, d2⟩ hd
  unfold refreshAdd
  by_cases hc : (refreshProjects w st desired).observers.contains d1
  · rw [if_pos hc]
  · rw [if_neg hc]
    have hnw : ¬(w d2 = true) := by
      intro hw
      have : d1 ∈ (refreshProjects w st desired).observers :=
        (hmem d1).mpr ⟨d2, hd, hw⟩
      rw [← List.elem_iff] at this
      exact hc this
    unfold startObserver
    rw [if_neg (by simp [hrun2])]
    have hnw2 : (!w d2) = true := by
      cases hw : w d2
      · rfl
      · exact absurd hw hnw
    rw [if_pos hnw2]

/-- C4 (amended): starting from a running service whose currently
watched projects that remain desired are still watchable, `refresh`
leaves the active watch set equal to the watchable members of the
desired set, tears down the watch of every project not desired, and a
second `refresh` with the same desired set changes nothing.
Per-project dispatcher state is not touched by `refresh` (see the
counterexample theorem). -/
theorem refresh_projects_amended (w : String → Bool) (st : WatcherSt)
    (desired : List (String × String)) (hrun : st.running = true)
    (hold : ∀ pid ∈ st.observers, ∀ path, (pid, path) ∈ desired → w path = true) :
    (∀ pid, pid ∈ (refreshProjects w st desired).observers ↔
      ∃ path, (pid, path) ∈ desired ∧ w path = true) ∧
    (∀ pid, (∀ path, (pid, path) ∉ desired) →
      pid ∉ (refreshProjects w st desired).observers) ∧
    refreshProjects w (refreshProjects w st desired) desired
      = refreshProjects w st desired := by
  refine ⟨refresh_mem w st desired hrun hold, ?_, refresh_idem w st desired hrun hold⟩
  intro pid hno hmem
  obtain ⟨path, hp, -⟩ := (refresh_mem w st desired hrun hold pid).mp hmem
  exact hno path hp

def c4wW : String → Bool := fun path => path == "/projects/q"

def c4wSt : WatcherSt := { running := true, observers := [], projectPaths := [] }

def c4wDesired : List (String × String) := [("q", "/projects/q")]

theorem refresh_projects_amended_witness :
    c4wSt.running = true ∧
    (("q" ∈ (refreshProjects c4wW c4wSt c4wDesired).observers ↔
        ∃ path, ("q", path) ∈ c4wDesired ∧ c4wW path = true) ∧
      refreshProjects c4wW (refreshProjects c4wW c4wSt c4wDesired) c4wDesired
        = refreshProjects c4wW c4wSt c4wDesired) :=
  ⟨rfl,
   (refresh_projects_amended c4wW c4wSt c4wDesired rfl (by simp [c4wSt])).1 "q",
   (refresh_projects_amended c4wW c4wSt c4wDesired rfl (by simp [c4wSt])).2.2⟩

/-- The per-project dictionaries initialised in
`WatcherEventDispatcher.__init__` (one assoc-list per dictionary,
keyed by project id). -/
structure DispatcherSt where
  startedIterations : List (String × List Int)
  completedIterations : List (String × List Int)
  logOffsets : List (String × Nat)
  logMtimesNs : List (String × Nat)
  logCtimesNs : List (String × Nat)
  logPfxs : List (String × List Char)
  logRemainders : List (String × List Char)
  planSnapshots : List (String × (Nat × Nat × List (List Char × Nat × Nat × String)))
  lastNotificationKeys :
    List (String × (List Char × List Char × Option (List Char) × Option Int))
  statuses : List (String × String)

/-- The watch service together with the dispatcher it feeds. -/
structure SystemSt where
  watcher : WatcherSt
  dispatcher : DispatcherSt

/-- `refresh_projects` at system level: it reconciles only the
observer dictionaries of the watch service — no statement in
`refresh_projects` or `_stop_observer` reads or writes any
`WatcherEventDispatcher` dictionary. -/
def refreshSystem (w : String → Bool) (sys : SystemSt)
    (desired : List (String × String)) : SystemSt :=
  { sys with watcher := refreshProjects w sys.watcher desired }

def c4Dispatcher : DispatcherSt :=
  { startedIterations := [("p", [1])], completedIterations := [("p", [1])],
    logOffsets := [("p", 7)], logMtimesNs := [("p", 3)], logCtimesNs := [("p", 3)],
    logPfxs := [("p", "x".toList)], logRemainders := [("p", "y".toList)],
    planSnapshots := [("p", (1, 2, []))],
    lastNotificationKeys := [("p", ("t".toList, "m".toList, none, none))],
    statuses := [("p", "running")] }

def c4System : SystemSt :=
  { watcher := { running := true, observers := ["p"], projectPaths := [("p", "/projects/p")] },
    dispatcher := c4Dispatcher }

/-- C4 (counterexample): removing project `p` from the desired set
tears down its watch, but every piece of its dispatcher state —
iteration sets, log cursor, plan snapshot, notification key, last
status — survives `refresh` unchanged, refuting "all of its per-project
dispatcher state discarded". -/
theorem refresh_keeps_dispatcher_state_counterexample :
    (refreshSystem (fun _ => true) c4System []).watcher.observers = [] ∧
    (refreshSystem (fun _ => true) c4System []).dispatcher = c4Dispatcher ∧
    c4Dispatcher.logOffsets = [("p", 7)] ∧
    c4Dispatcher.startedIterations = [("p", [1])] := by
  refine ⟨by decide, rfl, rfl, rfl⟩

/-! ## Event-queue consumer (`FileWatcherService._consume_events`) -/

structure ConsumerChange where
  projectId : String
  path : String
deriving DecidableEq

/-- The consumer's debounce key `f"{change.project_id}:{change.path}"`. -/
def consumerKey (c : ConsumerChange) : String := c.projectId ++ ":" ++ c.path

/-- `last_handled.get(key, 0.0)`. -/
def lookupTimeD (m : List (String × Nat)) (k : String) : Nat :=
  match m.lookup k with
  | some t => t
  | none => 0

/-- `last_handled[key] = now`. -/
def setTime (m : List (String × Nat)) (k : String) (t : Nat) : List (String × Nat) :=
  (k, t) :: m.filter (fun kv => kv.1 ≠ k)

/-- `_consume_events` over a static queue trace: each queued event is
paired with the loop time at which the consumer dequeues it (the
source's 0.5 s debounce window becomes 500 time units).  The consumer
dequeues the head; skips it (`continue`) when its key was handled
within the window; otherwise records the time, drains — and discards —
up to the next 50 queued events, and only then hands the head event to
the handler.  Returns the events actually handed to
`WatcherEventDispatcher.handle_change`, in order. -/
def consumeEvents (last : List (String × Nat)) (queue : List (ConsumerChange × Nat)) :
    List ConsumerChange :=
  match queue with
  | [] => []
  | (e, now) :: rest =>
    if now - lookupTimeD last (consumerKey e) < 500 then consumeEvents last rest
    else e :: consumeEvents (setTime last (consumerKey e) now) (rest.drop 50)
termination_by queue.length
decreasing_by
  · simp only [List.length_cons]; omega
  · simp only [List.length_cons, List.length_drop]; omega

theorem consumeEvents_nil (last : List (String × Nat)) : consumeEvents last [] = [] := by
  rw [consumeEvents.eq_def]

theorem consumeEvents_cons (last : List (String × Nat)) (e : ConsumerChange) (now : Nat)
    (rest : List (ConsumerChange × Nat)) :
    consumeEvents last ((e, now) :: rest) =
      if now - lookupTimeD last (consumerKey e) < 500 then consumeEvents last rest
      else e :: consumeEvents (setTime last (consumerKey e) now) (rest.drop 50) := by
  rw [consumeEvents.eq_def]

def c5e1 : ConsumerChange := ⟨"project-a", "AGENTS.md"⟩

def c5e2 : ConsumerChange := ⟨"project-a", "PROMPT.md"⟩

/-- C5: two distinct change events for the same project sit in the
queue (the scenario of the repository's own test
`test_consumer_processes_distinct_queued_events_without_dropping`);
the consumer handles the first but drains and discards the second, so
an enqueued event is never consumed by the dispatcher's change
handler — refuting exactly-once consumption after enqueue. -/
theorem consumer_drops_second_distinct_event :
    consumeEvents [] [(c5e1, 1000), (c5e2, 1000)] = [c5e1] ∧
    consumeEvents [] [(c5e1, 1000), (c5e2, 1000)] ≠ [c5e1, c5e2] := by
  have h : consumeEvents [] [(c5e1, 1000), (c5e2, 1000)] = [c5e1] := by
    rw [consumeEvents_cons]
    norm_num [lookupTimeD, consumeEvents_nil]
  refine ⟨h, ?_⟩
  rw [h]
  intro hc
  simp at hc

/-! ## Incremental log tail read
(`WatcherEventDispatcher._read_log_append_lines` /
`_handle_log_change`)

The log file is a character list together with its stat timestamps; the
dispatcher state holds the per-project entries of `_log_offsets`,
`_log_mtimes_ns`, `_log_ctimes_ns`, `_log_prefixes` (`pfxBytes` here)
and `_log_remainders`.  The `except OSError` recovery path (all
dictionary entries popped) is not reachable in this model and is
omitted. -/

structure LogSt where
  offset : Nat
  mtimeNs : Option Nat
  ctimeNs : Option Nat
  pfxBytes : Option (List Char)
  remainder : List Char
deriving DecidableEq

structure LogFile where
  content : List Char
  mtimeNs : Nat
  ctimeNs : Nat
deriving DecidableEq

/-- `_MAX_APPEND_BYTES = 512 * 1024`. -/
def MAX_APPEND_BYTES : Nat := 512 * 1024

/-- `lines[-1].endswith(("\n", "\r"))`. -/
def endsWithNlCr (l : List Char) : Bool :=
  match l.getLast? with
  | some c => c = '\n' || c = '\r'
  | none => false

/-- The truncation/rewrite detection of `_read_log_append_lines`
(the `size < previous_offset` / `size == previous_offset` branches):
returns the effective previous offset and pending remainder. -/
def logDetectReset (st : LogSt) (f : LogFile) (size : Nat) (currentPfx : List Char) :
    Nat × List Char :=
  if size < st.offset then (0, [])
  else if size = st.offset then
    let rewrittenByTime :=
      (st.mtimeNs.elim false (fun m => f.mtimeNs != m)) ||
        (st.ctimeNs.elim false (fun m => f.ctimeNs != m))
    let rewrittenByPfx := st.pfxBytes.elim false (fun p => currentPfx != p)
    if rewrittenByTime || rewrittenByPfx then (0, []) else (st.offset, st.remainder)
  else (st.offset, st.remainder)

/-- The first-event skip of `_read_log_append_lines`: on offset 0 with a
file larger than the cap, skip to `size - _MAX_APPEND_BYTES`. -/
def logSkipLarge (size : Nat) (p : Nat × List Char) : Nat × List Char :=
  if p.1 = 0 ∧ MAX_APPEND_BYTES < size then (size - MAX_APPEND_BYTES, []) else p

/-- The line-splitting tail of `_read_log_append_lines`: prepend the
pending remainder to the chunk, split keeping line endings, withhold a
trailing partial line, and join the complete lines into the payload
(`None` when no complete line remains). Returns (new remainder, payload). -/
def logSplitPayload (rem chunk : List Char) : List Char × Option (List Char) :=
  let buffer := rem ++ chunk
  let lines := splitLinesKeepends buffer
  match lines.getLast? with
  | some lastLine =>
    if endsWithNlCr lastLine then
      ([], if lines.isEmpty then none else some (joinAll lines))
    else
      (lastLine, if lines.dropLast.isEmpty then none else some (joinAll lines.dropLast))
  | none => ([], if lines.isEmpty then none else some (joinAll lines))

/-- `_read_log_append_lines`: returns the updated per-project state and
the payload of the `log_append` event, if one is emitted
(`_handle_log_change` emits exactly when the returned lines are
non-`None`). -/
def readLogAppendLines (st : LogSt) (f : LogFile) : LogSt × Option (List Char) :=
  let size := f.content.length
  let currentPfx := f.content.take (min 1024 size)
  let off2 := logSkipLarge size (logDetectReset st f size currentPfx)
  let chunk := (f.content.drop off2.1).take MAX_APPEND_BYTES
  let st1 : LogSt :=
    { offset := size, mtimeNs := some f.mtimeNs, ctimeNs := some f.ctimeNs,
      pfxBytes := some currentPfx, remainder := off2.2 }
  if chunk.isEmpty then (st1, none)
  else
    let out := logSplitPayload off2.2 chunk
    ({ st1 with remainder := out.1 }, out.2)

/-- A step of a log run: the loop process appends bytes to the log
(stat timestamps advance), or a change event fires and
`_handle_log_change` runs. -/
inductive LogStep
  | append (s : List Char)
  | fire
deriving DecidableEq

structure LogRun where
  file : LogFile
  st : LogSt
  events : List (List Char)
deriving DecidableEq

def logStep (r : LogRun) : LogStep → LogRun
  | .append s =>
    { r with file := { content := r.file.content ++ s,
                       mtimeNs := r.file.mtimeNs + 1, ctimeNs := r.file.ctimeNs + 1 } }
  | .fire =>
    let out := readLogAppendLines r.st r.file
    { r with st := out.1,
             events := r.events ++ (match out.2 with | some p => [p] | none => []) }

def logRun0 : LogRun :=
  { file := { content := [], mtimeNs := 0, ctimeNs := 0 },
    st := { offset := 0, mtimeNs := none, ctimeNs := none, pfxBytes := none, remainder := [] },
    events := [] }

def runLog (steps : List LogStep) : LogRun := steps.foldl logStep logRun0

theorem splitKeepAux_replicate_a (n : Nat) :
    ∀ acc, splitKeepAux (List.replicate n 'a' ++ ['\n']) acc =
      [acc.reverse ++ List.replicate n 'a' ++ ['\n']] := by
  induction n with
  | zero => intro acc; simp [splitKeepAux_cons, splitKeepAux_nil, isLineBreakChar]
  | succ n ih =>
    intro acc
    rw [List.replicate_succ, List.cons_append, splitKeepAux_cons]
    rw [if_neg (by rintro ⟨h, -⟩; exact absurd h (by decide))]
    rw [if_neg (by simp [isLineBreakChar])]
    rw [ih]
    simp

theorem logDetectReset_grow (st : LogSt) (f : LogFile) (size : Nat) (pfx : List Char)
    (h : st.offset < size) :
    logDetectReset st f size pfx = (st.offset, st.remainder) := by
  unfold logDetectReset
  rw [if_neg (by omega), if_neg (by omega)]

theorem logDetectReset_same (st : LogSt) (f : LogFile) (size : Nat) (pfx : List Char)
    (heq : size = st.offset)
    (hm : st.mtimeNs = some f.mtimeNs) (hc : st.ctimeNs = some f.ctimeNs)
    (hp : st.pfxBytes = some pfx) :
    logDetectReset st f size pfx = (st.offset, st.remainder) := by
  unfold logDetectReset
  rw [if_neg (by omega), if_pos heq]
  rw [hm, hc, hp]
  simp

theorem logSkipLarge_id (size : Nat) (p : Nat × List Char) (h : p.1 ≠ 0) :
    logSkipLarge size p = p := by
  unfold logSkipLarge
  rw [if_neg]
  rintro ⟨h1, -⟩
  exact h h1

theorem logSplitPayload_single (chunk : List Char)
    (hsplit : splitLinesKeepends chunk = [chunk]) (hends : endsWithNlCr chunk = true) :
    logSplitPayload [] chunk = ([], some chunk) := by
  unfold logSplitPayload
  rw [List.nil_append]
  dsimp only
  rw [hsplit]
  simp [hends, joinAll]

/-- The complete lines that arrive in one burst: 524287 `a`s and a
newline — exactly `_MAX_APPEND_BYTES` characters. -/
def aChunk : List Char := List.replicate 524287 'a' ++ ['\n']

def c1File1 : LogFile := { content := ['x', '\n'], mtimeNs := 1, ctimeNs := 1 }

def c1St2 : LogSt :=
  { offset := 2, mtimeNs := some 1, ctimeNs := some 1,
    pfxBytes := some ['x', '\n'], remainder := [] }

def c1Content3 : List Char := ['x', '\n'] ++ (aChunk ++ ['y', '\n'])

def c1File3 : LogFile := { content := c1Content3, mtimeNs := 2, ctimeNs := 2 }

def c1St4 : LogSt :=
  { offset := 524292, mtimeNs := some 2, ctimeNs := some 2,
    pfxBytes := some (c1Content3.take 1024), remainder := [] }

def c1Sched : List LogStep :=
  [LogStep.append ['x', '\n'], LogStep.fire,
   LogStep.append (aChunk ++ ['y', '\n']), LogStep.fire, LogStep.fire]

theorem c1_len3 : c1Content3.length = 524292 := by
  show (['x', '\n'] ++ ((List.replicate 524287 'a' ++ ['\n']) ++ ['y', '\n'])).length = 524292
  rw [List.length_append, List.length_append, List.length_append, List.length_replicate]
  norm_num

theorem c1_drop2 : c1Content3.drop 2 = aChunk ++ ['y', '\n'] :=
  List.drop_left ['x', '\n'] (aChunk ++ ['y', '\n'])

theorem c1_aChunk_len : aChunk.length = 524288 := by
  show (List.replicate 524287 'a' ++ ['\n']).length = 524288
  rw [List.length_append, List.length_replicate]
  norm_num

theorem c1_takeMax : (aChunk ++ ['y', '\n']).take MAX_APPEND_BYTES = aChunk := by
  have hA : MAX_APPEND_BYTES = aChunk.length := by
    rw [c1_aChunk_len]
    norm_num [MAX_APPEND_BYTES]
  rw [hA, List.take_left]

theorem c1_aChunk_ne : aChunk ≠ [] := by
  intro h
  have := congrArg List.length h
  rw [c1_aChunk_len] at this
  simp at this

theorem c1_split : splitLinesKeepends aChunk = [aChunk] := by
  show splitKeepAux (List.replicate 524287 'a' ++ ['\n']) [] = [aChunk]
  rw [splitKeepAux_replicate_a]
  rfl

theorem c1_ends : endsWithNlCr aChunk = true := by
  unfold endsWithNlCr
  rw [show aChunk.getLast? = some '\n' from List.getLast?_concat _]
  rfl

theorem c1_read4 : readLogAppendLines c1St2 c1File3 = (c1St4, some aChunk) := by
  have hlen : c1File3.content.length = 524292 := c1_len3
  unfold readLogAppendLines
  dsimp only
  rw [hlen]
  rw [logDetectReset_grow c1St2 c1File3 524292 _ (by norm_num [c1St2])]
  rw [logSkipLarge_id 524292 _ (by norm_num [c1St2])]
  dsimp only [c1St2, c1File3]
  rw [c1_drop2, c1_takeMax]
  rw [if_neg (by simp [List.isEmpty_iff, c1_aChunk_ne])]
  rw [logSplitPayload_single aChunk c1_split c1_ends]
  norm_num [c1St4]

theorem c1_dropAll : c1Content3.drop 524292 = [] := by
  rw [← c1_len3]
  exact List.drop_length _

theorem c1_read5 : readLogAppendLines c1St4 c1File3 = (c1St4, none) := by
  have hlen : c1File3.content.length = 524292 := c1_len3
  unfold readLogAppendLines
  dsimp only
  rw [hlen]
  rw [logDetectReset_same c1St4 c1File3 524292 (c1File3.content.take (min 1024 524292))
    (by norm_num [c1St4]) rfl rfl (by norm_num [c1St4, c1File3])]
  rw [logSkipLarge_id 524292 _ (by norm_num [c1St4])]
  dsimp only [c1St4, c1File3]
  rw [c1_dropAll]
  norm_num [c1St4]

theorem c1_run :
    runLog c1Sched = { file := c1File3, st := c1St4, events := [['x', '\n'], aChunk] } := by
  have hread2 : readLogAppendLines logRun0.st c1File1 = (c1St2, some ['x', '\n']) := by decide
  have e2 : logStep { file := c1File1, st := logRun0.st, events := [] } LogStep.fire
      = { file := c1File1, st := c1St2, events := [['x', '\n']] } := by
    simp only [logStep]
    rw [hread2]
    rfl
  have e4 : logStep { file := c1File3, st := c1St2, events := [['x', '\n']] } LogStep.fire
      = { file := c1File3, st := c1St4, events := [['x', '\n'], aChunk] } := by
    simp only [logStep]
    rw [c1_read4]
    rfl
  have e5 : logStep { file := c1File3, st := c1St4, events := [['x', '\n'], aChunk] }
      LogStep.fire
      = { file := c1File3, st := c1St4, events := [['x', '\n'], aChunk] } := by
    simp only [logStep]
    rw [c1_read5]
    simp
  show List.foldl logStep logRun0 c1Sched = _
  rw [show c1Sched = [LogStep.append ['x', '\n'], LogStep.fire,
    LogStep.append (aChunk ++ ['y', '\n']), LogStep.fire, LogStep.fire] from rfl]
  rw [List.foldl_cons, show logStep logRun0 (LogStep.append ['x', '\n'])
    = { file := c1File1, st := logRun0.st, events := [] } from rfl]
  rw [List.foldl_cons, e2]
  rw [List.foldl_cons, show logStep { file := c1File1, st := c1St2, events := [['x', '\n']] }
    (LogStep.append (aChunk ++ ['y', '\n']))
    = { file := c1File3, st := c1St2, events := [['x', '\n']] } from rfl]
  rw [List.foldl_cons, e4]
  rw [List.foldl_cons, e5]
  rw [List.foldl_nil]

/-- C1: at the failing input, the incremental log tail read loses data.
The log receives the line `x\n`, a change event fires, then a burst of
524290 further characters — an `a`-line of exactly the 512 KB cap
followed by the complete line `y\n` — arrives before the next change
event.  The dispatcher reads only the capped chunk yet records its
offset at the file size, so the appended complete line `y\n` is never
delivered: even after a further change event the concatenation of all
`log_append` payloads plus the withheld remainder differs from the
appended bytes, refuting the claim that no appended complete line is
ever omitted even when one event finds more than the 512 KB cap of new
bytes. -/
theorem c1_lenne :
    ((['x', '\n'] ++ (aChunk ++ ([] : List Char))) ++ ([] : List Char)).length
      ≠ (['x', '\n'] ++ (aChunk ++ ['y', '\n'])).length := by
  rw [List.length_append, List.length_append, List.length_append, List.length_append,
    List.length_append, c1_aChunk_len]
  norm_num

theorem c1_neq :
    ((['x', '\n'] ++ (aChunk ++ ([] : List Char))) ++ ([] : List Char))
      ≠ ['x', '\n'] ++ (aChunk ++ ['y', '\n']) :=
  fun h => c1_lenne (congrArg List.length h)

/-- C1: at the failing input, the incremental log tail read loses data.
The log receives the line `x\n`, a change event fires, then a burst of
524290 further characters — an `a`-line of exactly the 512 KB cap
followed by the complete line `y\n` — arrives before the next change
event.  The dispatcher reads only the capped chunk yet records its
offset at the file size, so the appended complete line `y\n` is never
delivered: even after a further change event the concatenation of all
`log_append` payloads plus the withheld remainder differs from the
appended bytes, refuting the claim that no appended complete line is
ever omitted even when a single change event finds more than the 512 KB
read cap of new bytes. -/
theorem log_append_loses_bytes_beyond_cap :
    (runLog c1Sched).events = [['x', '\n'], aChunk] ∧
    (runLog c1Sched).st.remainder = [] ∧
    (runLog c1Sched).file.content = ['x', '\n'] ++ (aChunk ++ ['y', '\n']) ∧
    joinAll (runLog c1Sched).events ++ (runLog c1Sched).st.remainder
      ≠ (runLog c1Sched).file.content := by
  rw [c1_run]
  exact ⟨rfl, rfl, rfl, c1_neq⟩

end Ralph
